import Mathlib

/-!
Verification of the raster compositing engine of the creative-spark
ad-creative generator.  The engine lives in the imageUtils module bundled
with useCreativeGenerator.ts: the per-pixel color classifiers
chromaKeyGreen and removeWhiteBackground, the bottom-anchored placement
computation inside compositeImages, the three radial-gradient shadow
layers painted by compositeImages, the white-flatten JPEG export in
stripTransparency, and the composite-failure fallback in generateCreative.

Machine bytes are modelled as natural numbers; the fractional arithmetic
the source performs in JavaScript doubles is modelled exactly over the
rationals, with Math.round rendered as rounding half away from zero on
nonnegative values (round in Mathlib).
-/

namespace CreativeSpark

/-- One RGBA pixel of an ImageData buffer: four 8-bit channels, straight
(non-premultiplied) alpha. -/
structure Pixel where
  r : ℕ
  g : ℕ
  b : ℕ
  a : ℕ
deriving DecidableEq

/-- An image buffer is its pixel list in row-major order; the classifiers
are a single independent pass over it, so width and height are irrelevant
to them. -/
abbrev Image := List Pixel

/-- The per-pixel body of the chromaKeyGreen loop: extreme green dominance
(g over 180, r and b under 120) zeroes the alpha; a softer green band
(g over 150 and g exceeding 1.4 times both r and b) sets alpha to
round(255 * (1 - greenness)) with greenness = (g - max r b) / g; any other
pixel is untouched.  Only the alpha byte is ever written. -/
def chromaKeyPixel (p : Pixel) : Pixel :=
  if p.g > 180 ∧ p.r < 120 ∧ p.b < 120 then
    { p with a := 0 }
  else if p.g > 150 ∧ (p.g : ℚ) > (p.r : ℚ) * 1.4 ∧ (p.g : ℚ) > (p.b : ℚ) * 1.4 then
    { p with a := (round ((255 : ℚ) * (1 - ((p.g : ℚ) - (max p.r p.b : ℚ)) / (p.g : ℚ)))).toNat }
  else p

/-- chromaKeyGreen applies the per-pixel chroma-key body to every pixel of
the buffer. -/
def chromaKeyGreen (img : Image) : Image :=
  img.map chromaKeyPixel

/-- The per-pixel body of the removeWhiteBackground loop: near-white
pixels (all channels over 240) become fully transparent; a softer band
(all channels over 220) gets alpha round(255 * (1 - whiteness)) with
whiteness = (r + g + b) / 765; any other pixel is untouched. -/
def removeWhitePixel (p : Pixel) : Pixel :=
  if p.r > 240 ∧ p.g > 240 ∧ p.b > 240 then
    { p with a := 0 }
  else if p.r > 220 ∧ p.g > 220 ∧ p.b > 220 then
    { p with a := (round ((255 : ℚ) * (1 - ((p.r : ℚ) + (p.g : ℚ) + (p.b : ℚ)) / (255 * 3)))).toNat }
  else p

/-- removeWhiteBackground applies the per-pixel white-strip body to every
pixel of the buffer. -/
def removeWhiteBackground (img : Image) : Image :=
  img.map removeWhitePixel

/-- The alpha channel of a buffer, as a list. -/
def alphaChannel (img : Image) : List ℕ :=
  img.map Pixel.a

/-- A 2 by 2 buffer of pure green 00FF00 pixels, fully opaque. -/
def pureGreen2x2 : Image :=
  List.replicate 4 ⟨0, 255, 0, 255⟩

/- Branch lemmas for the chroma-key body. -/

theorem chromaKeyPixel_extreme (p : Pixel)
    (h : p.g > 180 ∧ p.r < 120 ∧ p.b < 120) :
    chromaKeyPixel p = { p with a := 0 } := by
  unfold chromaKeyPixel
  rw [if_pos h]

theorem chromaKeyPixel_soft (p : Pixel)
    (h1 : ¬(p.g > 180 ∧ p.r < 120 ∧ p.b < 120))
    (h2 : p.g > 150 ∧ (p.g : ℚ) > (p.r : ℚ) * 1.4 ∧ (p.g : ℚ) > (p.b : ℚ) * 1.4) :
    chromaKeyPixel p =
      { p with a := (round ((255 : ℚ) * (1 - ((p.g : ℚ) - (max p.r p.b : ℚ)) / (p.g : ℚ)))).toNat } := by
  unfold chromaKeyPixel
  rw [if_neg h1, if_pos h2]

theorem chromaKeyPixel_skip (p : Pixel)
    (h1 : ¬(p.g > 180 ∧ p.r < 120 ∧ p.b < 120))
    (h2 : ¬(p.g > 150 ∧ (p.g : ℚ) > (p.r : ℚ) * 1.4 ∧ (p.g : ℚ) > (p.b : ℚ) * 1.4)) :
    chromaKeyPixel p = p := by
  unfold chromaKeyPixel
  rw [if_neg h1, if_neg h2]

theorem chromaKeyPixel_rgb (p : Pixel) :
    (chromaKeyPixel p).r = p.r ∧ (chromaKeyPixel p).g = p.g ∧ (chromaKeyPixel p).b = p.b := by
  unfold chromaKeyPixel
  split_ifs <;> exact ⟨rfl, rfl, rfl⟩

theorem chromaKeyPixel_idem (p : Pixel) :
    chromaKeyPixel (chromaKeyPixel p) = chromaKeyPixel p := by
  by_cases h1 : p.g > 180 ∧ p.r < 120 ∧ p.b < 120
  · rw [chromaKeyPixel_extreme p h1, chromaKeyPixel_extreme { p with a := 0 } h1]
  · by_cases h2 : p.g > 150 ∧ (p.g : ℚ) > (p.r : ℚ) * 1.4 ∧ (p.g : ℚ) > (p.b : ℚ) * 1.4
    · rw [chromaKeyPixel_soft p h1 h2]
      exact chromaKeyPixel_soft _ h1 h2
    · rw [chromaKeyPixel_skip p h1 h2, chromaKeyPixel_skip p h1 h2]

/- Branch lemmas for the white-strip body. -/

theorem removeWhitePixel_full (p : Pixel)
    (h : p.r > 240 ∧ p.g > 240 ∧ p.b > 240) :
    removeWhitePixel p = { p with a := 0 } := by
  unfold removeWhitePixel
  rw [if_pos h]

theorem removeWhitePixel_soft (p : Pixel)
    (h1 : ¬(p.r > 240 ∧ p.g > 240 ∧ p.b > 240))
    (h2 : p.r > 220 ∧ p.g > 220 ∧ p.b > 220) :
    removeWhitePixel p =
      { p with a := (round ((255 : ℚ) * (1 - ((p.r : ℚ) + (p.g : ℚ) + (p.b : ℚ)) / (255 * 3)))).toNat } := by
  unfold removeWhitePixel
  rw [if_neg h1, if_pos h2]

theorem removeWhitePixel_skip (p : Pixel)
    (h1 : ¬(p.r > 240 ∧ p.g > 240 ∧ p.b > 240))
    (h2 : ¬(p.r > 220 ∧ p.g > 220 ∧ p.b > 220)) :
    removeWhitePixel p = p := by
  unfold removeWhitePixel
  rw [if_neg h1, if_neg h2]

theorem removeWhitePixel_rgb (p : Pixel) :
    (removeWhitePixel p).r = p.r ∧ (removeWhitePixel p).g = p.g ∧ (removeWhitePixel p).b = p.b := by
  unfold removeWhitePixel
  split_ifs <;> exact ⟨rfl, rfl, rfl⟩

theorem removeWhitePixel_idem (p : Pixel) :
    removeWhitePixel (removeWhitePixel p) = removeWhitePixel p := by
  by_cases h1 : p.r > 240 ∧ p.g > 240 ∧ p.b > 240
  · rw [removeWhitePixel_full p h1, removeWhitePixel_full { p with a := 0 } h1]
  · by_cases h2 : p.r > 220 ∧ p.g > 220 ∧ p.b > 220
    · rw [removeWhitePixel_soft p h1 h2]
      exact removeWhitePixel_soft _ h1 h2
    · rw [removeWhitePixel_skip p h1 h2, removeWhitePixel_skip p h1 h2]

/-- The natural (decoded) dimensions of the product image. -/
structure Size where
  width : ℚ
  height : ℚ
deriving DecidableEq

/-- An axis-aligned rectangle in destination-canvas coordinates. -/
structure Rect where
  x : ℚ
  y : ℚ
  width : ℚ
  height : ℚ
deriving DecidableEq

/-- The aspect-preserving, bottom-anchored draw rectangle computed inside
compositeImages: a product relatively wider than the target box is fitted
to the box width and bottom-anchored; otherwise it is fitted to the box
height, centered horizontally, and bottom-anchored. -/
def place (productNaturalSize : Size) (targetRect : Rect) : Rect :=
  let imgAspect := productNaturalSize.width / productNaturalSize.height
  let boxAspect := targetRect.width / targetRect.height
  if imgAspect > boxAspect then
    let drawW := targetRect.width
    let drawH := targetRect.width / imgAspect
    ⟨targetRect.x, targetRect.y + targetRect.height - drawH, drawW, drawH⟩
  else
    let drawH := targetRect.height
    let drawW := targetRect.height * imgAspect
    ⟨targetRect.x + (targetRect.width - drawW) / 2, targetRect.y + targetRect.height - drawH, drawW, drawH⟩

theorem place_wide (n : Size) (r : Rect)
    (h : n.width / n.height > r.width / r.height) :
    place n r =
      ⟨r.x, r.y + r.height - r.width / (n.width / n.height),
       r.width, r.width / (n.width / n.height)⟩ := by
  unfold place
  rw [if_pos h]

theorem place_tall (n : Size) (r : Rect)
    (h : ¬(n.width / n.height > r.width / r.height)) :
    place n r =
      ⟨r.x + (r.width - r.height * (n.width / n.height)) / 2, r.y,
       r.height * (n.width / n.height), r.height⟩ := by
  unfold place
  rw [if_neg h]
  dsimp only
  simp only [Rect.mk.injEq]
  exact ⟨trivial, by ring, trivial, trivial⟩

/-- One radial-gradient shadow ellipse as painted by compositeImages: the
gradient center and radius basis passed to createRadialGradient, the
ellipse center and semi-axes passed to the ellipse call, and the color
stops as (fraction, alpha) pairs. -/
structure ShadowLayer where
  gradX : ℚ
  gradY : ℚ
  radiusBasis : ℚ
  ellipseX : ℚ
  ellipseY : ℚ
  semiX : ℚ
  semiY : ℚ
  stops : List (ℚ × ℚ)
deriving DecidableEq

/-- The drawing commands compositeImages issues against the canvas, in
program order. -/
inductive DrawOp where
  | fillWhite : DrawOp
  | drawScene : DrawOp
  | shadow : ShadowLayer → DrawOp
  | drawProduct : Rect → DrawOp
deriving DecidableEq

/-- The sequence of canvas operations performed by compositeImages for a
given product natural size and product position rect: white fill, scene
draw, the ambient, contact and core shadow layers, then the product
draw at the placed rectangle. -/
def compositeImagesOps (productNaturalSize : Size) (productPosition : Rect) : List DrawOp :=
  let d := place productNaturalSize productPosition
  let cx := d.x + d.width / 2
  let cy := d.y + d.height
  [ DrawOp.fillWhite,
    DrawOp.drawScene,
    DrawOp.shadow ⟨cx, cy, d.width * 0.7, cx, cy + 4, d.width * 0.65, d.height * 0.06,
      [(0, 0.10), (0.4, 0.05), (0.7, 0.02), (1, 0)]⟩,
    DrawOp.shadow ⟨cx + d.width * 0.03, cy, d.width * 0.38, cx + d.width * 0.03, cy + 2,
      d.width * 0.38, d.height * 0.025, [(0, 0.18), (0.4, 0.08), (1, 0)]⟩,
    DrawOp.shadow ⟨cx, cy, d.width * 0.22, cx, cy + 1, d.width * 0.22, d.height * 0.012,
      [(0, 0.28), (0.5, 0.10), (1, 0)]⟩,
    DrawOp.drawProduct d ]

/-- The peak alpha of a shadow layer: the alpha of its first color stop. -/
def peakShadowValue (s : ShadowLayer) : ℚ :=
  ((s.stops.headI : ℚ × ℚ)).2

/-- A pixel with exact rational channels: r, g, b on the 0..255 scale and
alpha normalized to 0..1, as the canvas compositing model treats it. -/
structure QPixel where
  r : ℚ
  g : ℚ
  b : ℚ
  a : ℚ
deriving DecidableEq

/-- Source-over compositing of one straight-alpha pixel onto another. -/
def overPixel (src dst : QPixel) : QPixel :=
  ⟨src.r * src.a + dst.r * (1 - src.a),
   src.g * src.a + dst.g * (1 - src.a),
   src.b * src.a + dst.b * (1 - src.a),
   src.a + dst.a * (1 - src.a)⟩

/-- The fully opaque white canvas pixel the flatten step paints first. -/
def whitePixel : QPixel := ⟨255, 255, 255, 1⟩

/-- Flattening a buffer over the opaque white canvas, pixel by pixel, as
stripTransparency does with its white fillRect followed by drawImage. -/
def flattenWhite (img : List QPixel) : List QPixel :=
  img.map fun p => overPixel p whitePixel

/-- JPEG encoding keeps only the three color channels; the format has no
alpha channel at all. -/
def encodeJPEG (img : List QPixel) : List (ℚ × ℚ × ℚ) :=
  img.map fun p => (p.r, p.g, p.b)

/-- Decoding JPEG bytes yields a buffer whose every pixel is fully
opaque. -/
def decodeJPEG (bytes : List (ℚ × ℚ × ℚ)) : List QPixel :=
  bytes.map fun c => ⟨c.1, c.2.1, c.2.2, 1⟩

/-- stripTransparency: flatten the buffer against an opaque white canvas
and export as JPEG. -/
def stripTransparency (img : List QPixel) : List (ℚ × ℚ × ℚ) :=
  encodeJPEG (flattenWhite img)

/-- The status a generated creative ends in. -/
inductive CreativeStatus where
  | generating : CreativeStatus
  | completed : CreativeStatus
  | error : CreativeStatus
deriving DecidableEq

/-- What generateCreative delivers for one creative: the output image URL
and the final status. -/
structure DeliveredCreative where
  outputImageUrl : String
  status : CreativeStatus
deriving DecidableEq

/-- The delivery tail of generateCreative, from the AI image onward: when
compositing is enabled the composite result is tried and a thrown error is
caught, falling back to the AI image; then stripTransparency is tried with
its own error likewise caught; the creative is then marked completed. -/
def deliverCreative (aiImageUrl : String) (compositingEnabled : Bool)
    (compositeResult : Except String String)
    (stripResult : String → Except String String) : DeliveredCreative :=
  let afterComposite :=
    if compositingEnabled then
      match compositeResult with
      | Except.ok composited => composited
      | Except.error _ => aiImageUrl
    else aiImageUrl
  let finalImageUrl :=
    match stripResult afterComposite with
    | Except.ok stripped => stripped
    | Except.error _ => afterComposite
  ⟨finalImageUrl, CreativeStatus.completed⟩

/-- C3: for every product natural size and every target rect with positive
dimensions, the draw rectangle compositeImages computes is bottom-anchored:
its y plus its height equals the target y plus the target height, exactly,
in both the wider-than-box and the taller-or-equal branches. -/
theorem place_bottomAnchored (n : Size) (r : Rect)
    (hw : 0 < r.width) (hh : 0 < r.height) :
    (place n r).y + (place n r).height = r.y + r.height := by
  by_cases h : n.width / n.height > r.width / r.height
  · rw [place_wide n r h]
    dsimp only
    ring
  · rw [place_tall n r h]

theorem place_bottomAnchored_witness :
    (0 : ℚ) < 300 ∧ (0 : ℚ) < 100 ∧
      (place ⟨100, 200⟩ ⟨0, 0, 300, 100⟩).y + (place ⟨100, 200⟩ ⟨0, 0, 300, 100⟩).height
        = 0 + 100 :=
  ⟨by norm_num, by norm_num,
   place_bottomAnchored ⟨100, 200⟩ ⟨0, 0, 300, 100⟩ (by norm_num) (by norm_num)⟩

/-- C4: for every positive product natural size and every target rect with
positive dimensions, the draw rectangle preserves the product aspect
ratio exactly in rational arithmetic: its width over its height equals the
natural width over the natural height, so the product is never
stretched. -/
theorem place_preservesAspect (n : Size) (r : Rect)
    (hnw : 0 < n.width) (hnh : 0 < n.height) (hw : 0 < r.width) (hh : 0 < r.height) :
    (place n r).width / (place n r).height = n.width / n.height := by
  have h1 : r.width ≠ 0 := hw.ne'
  have h2 : r.height ≠ 0 := hh.ne'
  have h3 : n.width ≠ 0 := hnw.ne'
  have h4 : n.height ≠ 0 := hnh.ne'
  by_cases h : n.width / n.height > r.width / r.height
  · rw [place_wide n r h]
    dsimp only
    rw [div_div_eq_mul_div, mul_comm, mul_div_assoc, div_self h1, mul_one]
  · rw [place_tall n r h]
    dsimp only
    rw [mul_comm, mul_div_assoc, div_self h2, mul_one]

theorem place_preservesAspect_witness :
    (0 : ℚ) < 100 ∧ (0 : ℚ) < 200 ∧ (0 : ℚ) < 300 ∧
      (place ⟨100, 200⟩ ⟨0, 0, 300, 100⟩).width / (place ⟨100, 200⟩ ⟨0, 0, 300, 100⟩).height
        = 100 / 200 :=
  ⟨by norm_num, by norm_num, by norm_num,
   place_preservesAspect ⟨100, 200⟩ ⟨0, 0, 300, 100⟩
     (by norm_num) (by norm_num) (by norm_num) (by norm_num)⟩

/-- C5: the portrait product of natural size 100 by 200 placed into the
wide box with x 0, y 0, width 300, height 100 lands in the draw rectangle
with height 100, width 50, bottom-anchored at y 0 and horizontally
centered at x 125. -/
theorem place_scenario_portrait :
    place ⟨100, 200⟩ ⟨0, 0, 300, 100⟩ = ⟨125, 0, 50, 100⟩ := by
  rw [place_tall ⟨100, 200⟩ ⟨0, 0, 300, 100⟩ (by norm_num)]
  simp only [Rect.mk.injEq]
  norm_num

/-- C2: for every placed product, compositeImages paints exactly three
concentric radial-gradient shadow layers, in program order ambient then
contact then core, all before the product draw, and the product draw is
the last operation; the ambient radius basis is 0.70 times the draw width
with peak alpha 0.10 (inside the stated 0.10 to 0.12 band), the contact
radius basis is 0.38 times the draw width with peak alpha 0.18 (inside
0.18 to 0.22), and the core radius basis is 0.22 times the draw width
with peak alpha 0.28. -/
theorem compositeImages_threeShadows (n : Size) (r : Rect) :
    ∃ amb con core : ShadowLayer,
      compositeImagesOps n r =
        [DrawOp.fillWhite, DrawOp.drawScene, DrawOp.shadow amb, DrawOp.shadow con,
         DrawOp.shadow core, DrawOp.drawProduct (place n r)] ∧
      amb.radiusBasis = 0.70 * (place n r).width ∧
      (0.10 : ℚ) ≤ peakShadowValue amb ∧ peakShadowValue amb ≤ 0.12 ∧
      con.radiusBasis = 0.38 * (place n r).width ∧
      (0.18 : ℚ) ≤ peakShadowValue con ∧ peakShadowValue con ≤ 0.22 ∧
      core.radiusBasis = 0.22 * (place n r).width ∧
      peakShadowValue core = 0.28 := by
  refine ⟨_, _, _, rfl, ?_, ?_, ?_, ?_, ?_, ?_, ?_, ?_⟩ <;>
    simp only [peakShadowValue, List.headI] <;>
    norm_num [mul_comm]

/-- C6: the per-pixel chroma-key rule: rgb is never modified; extreme
green dominance (g over 180, r and b under 120) zeroes alpha, so the
2 by 2 pure-green image ends with an all-zero alpha channel; otherwise
the soft band (g over 150 and g above 1.4 times r and 1.4 times b) sets
alpha to 255 times one minus greenness, rounded to a byte, with greenness
equal to (g - max r b) / g; any other pixel is unchanged. -/
theorem chromaKeyGreen_pixelRule (p : Pixel) :
    ((chromaKeyPixel p).r = p.r ∧ (chromaKeyPixel p).g = p.g ∧ (chromaKeyPixel p).b = p.b) ∧
    (p.g > 180 ∧ p.r < 120 ∧ p.b < 120 → (chromaKeyPixel p).a = 0) ∧
    (¬(p.g > 180 ∧ p.r < 120 ∧ p.b < 120) →
      p.g > 150 ∧ (p.g : ℚ) > (p.r : ℚ) * 1.4 ∧ (p.g : ℚ) > (p.b : ℚ) * 1.4 →
      (chromaKeyPixel p).a =
        (round ((255 : ℚ) * (1 - ((p.g : ℚ) - (max p.r p.b : ℚ)) / (p.g : ℚ)))).toNat) ∧
    (¬(p.g > 180 ∧ p.r < 120 ∧ p.b < 120) →
      ¬(p.g > 150 ∧ (p.g : ℚ) > (p.r : ℚ) * 1.4 ∧ (p.g : ℚ) > (p.b : ℚ) * 1.4) →
      chromaKeyPixel p = p) ∧
    alphaChannel (chromaKeyGreen pureGreen2x2) = [0, 0, 0, 0] := by
  refine ⟨chromaKeyPixel_rgb p, ?_, ?_, chromaKeyPixel_skip p, by decide⟩
  · intro h
    rw [chromaKeyPixel_extreme p h]
  · intro h1 h2
    rw [chromaKeyPixel_soft p h1 h2]

theorem chromaKeyGreen_pixelRule_witness :
    ((255 : ℕ) > 180 ∧ (0 : ℕ) < 120 ∧ (0 : ℕ) < 120) ∧
      (chromaKeyPixel ⟨0, 255, 0, 255⟩).a = 0 :=
  ⟨by decide, (chromaKeyGreen_pixelRule ⟨0, 255, 0, 255⟩).2.1 (by decide)⟩

theorem removeWhitePixel_230 : (removeWhitePixel ⟨230, 230, 230, 255⟩).a = 25 := by
  unfold removeWhitePixel
  rw [if_neg (by decide), if_pos (by decide)]
  dsimp only
  rw [show ((((230 : ℕ) : ℚ) + ((230 : ℕ) : ℚ) + ((230 : ℕ) : ℚ)) / (255 * 3)) = 46 / 51 by
    norm_num]
  rw [show ((255 : ℚ) * (1 - 46 / 51)) = ((25 : ℤ) : ℚ) by norm_num]
  rw [round_intCast]
  rfl

/-- C7: the per-pixel white-strip rule: channels all over 240 zero the
alpha; otherwise channels all over 220 set alpha to 255 times one minus
whiteness, rounded to a byte, with whiteness equal to (r + g + b) / 765;
any other pixel is unchanged; in particular pure white 255 255 255 gets
alpha 0, the near-white 230 230 230 gets an alpha strictly between 0 and
255, and black 0 0 0 keeps its alpha of 255. -/
theorem removeWhiteBackground_pixelRule (p : Pixel) :
    (p.r > 240 ∧ p.g > 240 ∧ p.b > 240 → (removeWhitePixel p).a = 0) ∧
    (¬(p.r > 240 ∧ p.g > 240 ∧ p.b > 240) →
      p.r > 220 ∧ p.g > 220 ∧ p.b > 220 →
      (removeWhitePixel p).a =
        (round ((255 : ℚ) * (1 - ((p.r : ℚ) + (p.g : ℚ) + (p.b : ℚ)) / (255 * 3)))).toNat) ∧
    (¬(p.r > 240 ∧ p.g > 240 ∧ p.b > 240) →
      ¬(p.r > 220 ∧ p.g > 220 ∧ p.b > 220) →
      removeWhitePixel p = p) ∧
    (removeWhitePixel ⟨255, 255, 255, 255⟩).a = 0 ∧
    0 < (removeWhitePixel ⟨230, 230, 230, 255⟩).a ∧
    (removeWhitePixel ⟨230, 230, 230, 255⟩).a < 255 ∧
    removeWhitePixel ⟨0, 0, 0, 255⟩ = ⟨0, 0, 0, 255⟩ := by
  refine ⟨?_, ?_, removeWhitePixel_skip p, by decide,
    by rw [removeWhitePixel_230]; norm_num, by rw [removeWhitePixel_230]; norm_num, by decide⟩
  · intro h
    rw [removeWhitePixel_full p h]
  · intro h1 h2
    rw [removeWhitePixel_soft p h1 h2]

theorem removeWhiteBackground_pixelRule_witness :
    ((255 : ℕ) > 240 ∧ (255 : ℕ) > 240 ∧ (255 : ℕ) > 240) ∧
      (removeWhitePixel ⟨255, 255, 255, 255⟩).a = 0 :=
  ⟨by decide, (removeWhiteBackground_pixelRule ⟨255, 255, 255, 255⟩).1 (by decide)⟩

theorem removeWhiteBackground_idem (img : Image) :
    removeWhiteBackground (removeWhiteBackground img) = removeWhiteBackground img := by
  unfold removeWhiteBackground
  rw [List.map_map]
  simp only [Function.comp_def, removeWhitePixel_idem]

theorem chromaKeyGreen_idem (img : Image) :
    chromaKeyGreen (chromaKeyGreen img) = chromaKeyGreen img := by
  unfold chromaKeyGreen
  rw [List.map_map]
  simp only [Function.comp_def, chromaKeyPixel_idem]

/-- C8: both classifiers are idempotent: a second pass of
removeWhiteBackground or of chromaKeyGreen leaves the alpha channel of
the first pass unchanged, because each pass reads only the rgb channels
it never modifies. -/
theorem classifiers_idempotent (img : Image) :
    alphaChannel (removeWhiteBackground (removeWhiteBackground img)) =
      alphaChannel (removeWhiteBackground img) ∧
    alphaChannel (chromaKeyGreen (chromaKeyGreen img)) =
      alphaChannel (chromaKeyGreen img) :=
  ⟨congrArg alphaChannel (removeWhiteBackground_idem img),
   congrArg alphaChannel (chromaKeyGreen_idem img)⟩

/-- C1: the flatten step composites every pixel over the opaque white
canvas by the source-over rule, giving rgb equal to srcRGB times srcA
plus 255 times one minus srcA and an output alpha of exactly one (fully
opaque), and the JPEG-encoded output of stripTransparency, once decoded,
has every pixel fully opaque. -/
theorem stripTransparency_opaqueOutput (img : List QPixel) :
    (∀ p : QPixel, overPixel p whitePixel =
      ⟨p.r * p.a + 255 * (1 - p.a), p.g * p.a + 255 * (1 - p.a),
       p.b * p.a + 255 * (1 - p.a), 1⟩) ∧
    ∀ q ∈ decodeJPEG (stripTransparency img), q.a = 1 := by
  constructor
  · intro p
    unfold overPixel whitePixel
    simp only [QPixel.mk.injEq]
    exact ⟨by ring, by ring, by ring, by ring⟩
  · intro q hq
    unfold decodeJPEG at hq
    rw [List.mem_map] at hq
    obtain ⟨c, hc, rfl⟩ := hq
    rfl

theorem stripTransparency_opaqueOutput_witness :
    (⟨255, 255, 255, 1⟩ : QPixel) ∈ decodeJPEG (stripTransparency [⟨0, 0, 0, 0⟩]) ∧
      (⟨255, 255, 255, 1⟩ : QPixel).a = 1 := by
  have hm : (⟨255, 255, 255, 1⟩ : QPixel) ∈ decodeJPEG (stripTransparency [⟨0, 0, 0, 0⟩]) := by
    unfold stripTransparency flattenWhite encodeJPEG decodeJPEG overPixel whitePixel
    simp only [List.map_cons, List.map_nil, List.mem_singleton, QPixel.mk.injEq]
    norm_num
  exact ⟨hm, (stripTransparency_opaqueOutput [⟨0, 0, 0, 0⟩]).2 ⟨255, 255, 255, 1⟩ hm⟩

/-- C9: a compositing failure never blocks creative delivery: when
compositing is enabled and compositeImages throws, generateCreative
catches the error and delivers exactly what it would have delivered with
compositing disabled — the uncomposited AI output image (transparency
stripped when that final step succeeds) — and the creative still ends
with status completed. -/
theorem compositingFailure_fallsBack (ai e : String)
    (strip : String → Except String String) (other : Except String String) :
    deliverCreative ai true (Except.error e) strip = deliverCreative ai false other strip ∧
    (deliverCreative ai true (Except.error e) strip).status = CreativeStatus.completed :=
  ⟨rfl, rfl⟩

end CreativeSpark
